import Mathlib

/-!
Verification of the PDF-to-audio repository against its specification.

The repository ships two source files: the pdf-to-mp3 script
(src/pdf-mp3-py.py) and the test suite of the pypdf `_utils` module
(src/pypdf/tests/test_utils.py).  The `_utils` implementation itself is not
part of the sources, so the low-level stream primitives are modelled from
the specification (spec.md), faithful to its words, and checked against the
expected values recorded in the test suite.  Byte streams are modelled as a
list of byte values (`List Nat`) together with an explicit cursor position;
reading and seeking become pure functions on that state.
-/

/-- Modelled from the spec: the error taxonomy of the stream layer.  In the
library a stream error derives from the read error, so every stream error is
also a read error. -/
inductive PdfError where
  | streamError (msg : String)
  | readError (msg : String)
deriving DecidableEq

/-- Modelled from the spec: the byte is one of the two line-ending bytes CR
(13) or LF (10), the conventions `\r\n`, lone `\r` and lone `\n` being built
from them. -/
def isCRLF (b : Nat) : Bool := b == 13 || b == 10

/-- Modelled from the spec: whitespace bytes — space, tab, CR, LF, form-feed
and NUL are all treated as equivalent separators. -/
def isWhitespaceByte (b : Nat) : Bool :=
  b == 32 || b == 9 || b == 13 || b == 10 || b == 12 || b == 0

/-- Modelled from the spec: the Paeth predictor of the PNG adaptive scheme —
`paeth(left, up, upleft)` is the one of the three inputs whose value is
closest to `left + up - upleft` by absolute difference, ties broken in the
order left, up, upleft. -/
def paeth_predictor (left up up_left : Int) : Int :=
  let p := left + up - up_left
  let dist_left := (p - left).natAbs
  let dist_up := (p - up).natAbs
  let dist_up_left := (p - up_left).natAbs
  if dist_left ≤ dist_up ∧ dist_left ≤ dist_up_left then left
  else if dist_up ≤ dist_up_left then up
  else up_left

/-- Distance of a candidate `x` from the Paeth base value `left + up - upleft`. -/
def paethDist (left up up_left x : Int) : Nat := (left + up - up_left - x).natAbs

/-- C1: for all integers left, up, upleft, `paeth_predictor` returns one of
its three inputs, that input minimises the absolute difference from
`left + up - upleft`, ties are broken in the order left, then up, then
upleft, and the predictor agrees with the exhaustive table
paeth(1,2,3)=1, paeth(2,1,3)=1, paeth(1,3,2)=2, paeth(3,1,2)=2,
paeth(3,2,1)=3. -/
theorem paeth_predictor_spec (left up up_left : Int) :
    (paeth_predictor left up up_left = left ∨
     paeth_predictor left up up_left = up ∨
     paeth_predictor left up up_left = up_left) ∧
    paethDist left up up_left (paeth_predictor left up up_left) ≤
      paethDist left up up_left left ∧
    paethDist left up up_left (paeth_predictor left up up_left) ≤
      paethDist left up up_left up ∧
    paethDist left up up_left (paeth_predictor left up up_left) ≤
      paethDist left up up_left up_left ∧
    (paethDist left up up_left left ≤ paethDist left up up_left up →
     paethDist left up up_left left ≤ paethDist left up up_left up_left →
     paeth_predictor left up up_left = left) ∧
    (paethDist left up up_left up < paethDist left up up_left left →
     paethDist left up up_left up ≤ paethDist left up up_left up_left →
     paeth_predictor left up up_left = up) ∧
    (paethDist left up up_left up_left < paethDist left up up_left left →
     paethDist left up up_left up_left < paethDist left up up_left up →
     paeth_predictor left up up_left = up_left) ∧
    paeth_predictor 1 2 3 = 1 ∧ paeth_predictor 2 1 3 = 1 ∧
    paeth_predictor 1 3 2 = 2 ∧ paeth_predictor 3 1 2 = 2 ∧
    paeth_predictor 3 2 1 = 3 := by
  refine ⟨?_, ?_, ?_, ?_, ?_, ?_, ?_, by decide, by decide, by decide, by decide, by decide⟩ <;>
    · simp only [paeth_predictor, paethDist]
      split_ifs with h1 h2 <;> omega

/-- Modelled from the spec: format `n / unit` with exactly one decimal digit
using half-up rounding, followed by the unit suffix.  The number of tenths is
`round_half_up(10 * n / unit)`, computed exactly over the naturals. -/
def formatScaled (n unit : Nat) (suffix : String) : String :=
  let tenths := (10 * n + unit / 2) / unit
  toString (tenths / 10) ++ "." ++ toString (tenths % 10) ++ " " ++ suffix

/-- Modelled from the spec: human-readable byte-size formatting for
diagnostics — a pure function mapping an integer byte count to a string using
decimal units: below 1000 the count itself with suffix Byte, else scaled to
kB, MB or GB with one decimal digit and half-up rounding. -/
def _human_readable_bytes (b : Nat) : String :=
  if b < 1000 then toString b ++ " Byte"
  else if b < 1000000 then formatScaled b 1000 "kB"
  else if b < 1000000000 then formatScaled b 1000000 "MB"
  else formatScaled b 1000000000 "GB"

/-- C2: for every byte count `n`, counts below 1000 format as the bare count
with suffix Byte, and otherwise the output is the count scaled to kB, MB or
GB with exactly one decimal digit `t % 10` after the integer part `t / 10`,
where the number of tenths `t` is characterised as the half-up rounding of
`10 * n / unit` (`2 * unit * t ≤ 20 * n + unit < 2 * unit * (t + 1)`); in
particular 123, 1234, 123456 and 1234567890000 format as the test suite
records. -/
theorem human_readable_bytes_spec (n : Nat) :
    (n < 1000 → _human_readable_bytes n = toString n ++ " Byte") ∧
    (1000 ≤ n → n < 1000000 → ∃ t,
      2000 * t ≤ 20 * n + 1000 ∧ 20 * n + 1000 < 2000 * (t + 1) ∧
      _human_readable_bytes n =
        toString (t / 10) ++ "." ++ toString (t % 10) ++ " kB") ∧
    (1000000 ≤ n → n < 1000000000 → ∃ t,
      2000000 * t ≤ 20 * n + 1000000 ∧ 20 * n + 1000000 < 2000000 * (t + 1) ∧
      _human_readable_bytes n =
        toString (t / 10) ++ "." ++ toString (t % 10) ++ " MB") ∧
    (1000000000 ≤ n → ∃ t,
      2000000000 * t ≤ 20 * n + 1000000000 ∧
      20 * n + 1000000000 < 2000000000 * (t + 1) ∧
      _human_readable_bytes n =
        toString (t / 10) ++ "." ++ toString (t % 10) ++ " GB") ∧
    _human_readable_bytes 123 = "123 Byte" ∧
    _human_readable_bytes 1234 = "1.2 kB" ∧
    _human_readable_bytes 123456 = "123.5 kB" ∧
    _human_readable_bytes 1234567890000 = "1234.6 GB" := by
  refine ⟨?_, ?_, ?_, ?_, by rfl, by rfl, by rfl, by rfl⟩
  · intro h
    simp only [_human_readable_bytes, if_pos h]
  · intro h1 h2
    refine ⟨(10 * n + 500) / 1000, ?_, ?_, ?_⟩
    · have hdm := Nat.div_add_mod (10 * n + 500) 1000
      have hlt := Nat.mod_lt (10 * n + 500) (show 0 < 1000 by norm_num)
      omega
    · have hdm := Nat.div_add_mod (10 * n + 500) 1000
      have hlt := Nat.mod_lt (10 * n + 500) (show 0 < 1000 by norm_num)
      omega
    · simp only [_human_readable_bytes, formatScaled]
      rw [if_neg (by omega), if_pos h2]
      norm_num [String.append_assoc]
      rfl
  · intro h1 h2
    refine ⟨(10 * n + 500000) / 1000000, ?_, ?_, ?_⟩
    · have hdm := Nat.div_add_mod (10 * n + 500000) 1000000
      have hlt := Nat.mod_lt (10 * n + 500000) (show 0 < 1000000 by norm_num)
      omega
    · have hdm := Nat.div_add_mod (10 * n + 500000) 1000000
      have hlt := Nat.mod_lt (10 * n + 500000) (show 0 < 1000000 by norm_num)
      omega
    · simp only [_human_readable_bytes, formatScaled]
      rw [if_neg (by omega), if_neg (by omega), if_pos h2]
      norm_num [String.append_assoc]
      rfl
  · intro h1
    refine ⟨(10 * n + 500000000) / 1000000000, ?_, ?_, ?_⟩
    · have hdm := Nat.div_add_mod (10 * n + 500000000) 1000000000
      have hlt := Nat.mod_lt (10 * n + 500000000) (show 0 < 1000000000 by norm_num)
      omega
    · have hdm := Nat.div_add_mod (10 * n + 500000000) 1000000000
      have hlt := Nat.mod_lt (10 * n + 500000000) (show 0 < 1000000000 by norm_num)
      omega
    · simp only [_human_readable_bytes, formatScaled]
      rw [if_neg (by omega), if_neg (by omega), if_neg (by omega)]
      norm_num [String.append_assoc]
      rfl

/-- Modelled from the spec: count the whitespace bytes at the head of the
remaining input, one stream read at a time. -/
def sowAux : List Nat → Nat
  | [] => 0
  | b :: rest => if isWhitespaceByte b then 1 + sowAux rest else 0

/-- Modelled from the spec: skip the run of whitespace separator bytes at the
cursor, returning whether the stream started with whitespace together with
the new cursor position. -/
def skip_over_whitespace (data : List Nat) (pos : Nat) : Bool × Nat :=
  match data.drop pos with
  | [] => (false, pos)
  | b :: rest =>
    if isWhitespaceByte b then (true, pos + 1 + sowAux rest) else (false, pos)

theorem sowAux_eq_takeWhile (l : List Nat) :
    sowAux l = (l.takeWhile isWhitespaceByte).length := by
  induction l with
  | nil => rfl
  | cons b rest ih =>
    simp only [sowAux, List.takeWhile_cons]
    by_cases h : isWhitespaceByte b = true
    · simp [h, ih]
      omega
    · simp [h]

/-- C8: `skip_over_whitespace` consumes exactly the maximal leading run of
whitespace bytes, its boolean result is true exactly when the first byte at
the cursor is a whitespace byte, the whitespace bytes are space, tab, CR, LF,
form-feed and NUL, and the test-suite cases evaluate as recorded. -/
theorem skip_over_whitespace_spec (data : List Nat) (pos : Nat) :
    (skip_over_whitespace data pos).2 =
      pos + ((data.drop pos).takeWhile isWhitespaceByte).length ∧
    ((skip_over_whitespace data pos).1 = true ↔
      ∃ b rest, data.drop pos = b :: rest ∧ isWhitespaceByte b = true) ∧
    (∀ b : Nat, isWhitespaceByte b = true ↔
      b = 32 ∨ b = 9 ∨ b = 13 ∨ b = 10 ∨ b = 12 ∨ b = 0) ∧
    (skip_over_whitespace [32] 0).1 = true ∧
    (skip_over_whitespace [32, 32] 0).1 = true ∧
    (skip_over_whitespace [32, 32, 10] 0).1 = true ∧
    (skip_over_whitespace [102, 111, 111] 0).1 = false ∧
    (skip_over_whitespace [] 0).1 = false := by
  refine ⟨?_, ?_, ?_, by decide, by decide, by decide, by decide, by decide⟩
  · rcases h : data.drop pos with _ | ⟨b, rest⟩
    · simp [skip_over_whitespace, h]
    · by_cases hb : isWhitespaceByte b = true
      · simp [skip_over_whitespace, h, hb, sowAux_eq_takeWhile, List.takeWhile_cons]
        omega
      · simp [skip_over_whitespace, h, hb, List.takeWhile_cons]
  · rcases h : data.drop pos with _ | ⟨b, rest⟩
    · simp [skip_over_whitespace, h]
    · by_cases hb : isWhitespaceByte b = true
      · simp [skip_over_whitespace, h, hb]
      · simp [skip_over_whitespace, h, hb]
  · intro b
    simp [isWhitespaceByte, Bool.or_eq_true, beq_iff_eq]
    tauto

/-- Modelled from the spec: number of bytes a comment consumes after the `%`
byte — everything up to and including the first end-of-line byte, or the
whole remaining input when no end of line follows. -/
def countUntilEOL : List Nat → Nat
  | [] => 0
  | b :: rest => if isCRLF b then 1 else 1 + countUntilEOL rest

/-- Modelled from the spec: when the byte at the cursor is `%` (37), consume
and discard the comment through the end of the line; otherwise leave the
cursor unchanged.  Returns the new cursor position. -/
def skip_over_comment (data : List Nat) (pos : Nat) : Nat :=
  match data.drop pos with
  | [] => pos
  | b :: rest => if b == 37 then pos + 1 + countUntilEOL rest else pos

theorem countUntilEOL_no_eol (l : List Nat) (h : ∀ b ∈ l, isCRLF b = false) :
    countUntilEOL l = l.length := by
  induction l with
  | nil => rfl
  | cons b rest ih =>
    have hb := h b (by simp)
    have ih2 := ih (fun x hx => h x (by simp [hx]))
    simp [countUntilEOL, hb, ih2]
    omega

theorem countUntilEOL_finds_eol (body : List Nat) (eol : Nat) (tail : List Nat)
    (hbody : ∀ b ∈ body, isCRLF b = false) (heol : isCRLF eol = true) :
    countUntilEOL (body ++ eol :: tail) = body.length + 1 := by
  induction body with
  | nil => simp [countUntilEOL, heol]
  | cons b rest ih =>
    have hb := hbody b (by simp)
    have ih2 := ih (fun x hx => hbody x (by simp [hx]))
    simp [countUntilEOL, hb, ih2]
    omega

/-- C7: `skip_over_comment` consumes bytes from the cursor up to and
including the end of line exactly when the byte at the cursor is `%`, and
leaves the cursor unchanged otherwise; a `%` inside the comment body does not
extend the comment past the first end-of-line byte, so the remainder of
"% foo%\nbar" is "bar" and a single blank is left untouched. -/
theorem skip_over_comment_spec (data : List Nat) (pos : Nat) :
    (∀ b rest, data.drop pos = b :: rest → b ≠ 37 →
      skip_over_comment data pos = pos) ∧
    (data.drop pos = [] → skip_over_comment data pos = pos) ∧
    (∀ body eol tail, data.drop pos = 37 :: (body ++ eol :: tail) →
      (∀ b ∈ body, isCRLF b = false) → isCRLF eol = true →
      skip_over_comment data pos = pos + 2 + body.length) ∧
    (∀ rest, data.drop pos = 37 :: rest → (∀ b ∈ rest, isCRLF b = false) →
      skip_over_comment data pos = pos + 1 + rest.length) ∧
    skip_over_comment [37, 32, 102, 111, 111, 37, 10, 98, 97, 114] 0 = 7 ∧
    List.drop (skip_over_comment [37, 32, 102, 111, 111, 37, 10, 98, 97, 114] 0)
      [37, 32, 102, 111, 111, 37, 10, 98, 97, 114] = [98, 97, 114] ∧
    skip_over_comment [32] 0 = 0 := by
  refine ⟨?_, ?_, ?_, ?_, by decide, by decide, by decide⟩
  · intro b rest h hb
    simp [skip_over_comment, h, hb]
  · intro h
    simp [skip_over_comment, h]
  · intro body eol tail h hbody heol
    simp only [skip_over_comment, h, beq_self_eq_true, if_true]
    rw [countUntilEOL_finds_eol body eol tail hbody heol]
    omega
  · intro rest h hrest
    simp only [skip_over_comment, h, beq_self_eq_true, if_true]
    rw [countUntilEOL_no_eol rest hrest]

/-- Modelled from the spec: read bytes one at a time until a whitespace byte
or the end of the stream is hit, or until the returned text reaches the
optional `maxchars` bound; returns the text together with the number of
bytes consumed from the stream. -/
def ruwAux : Option Nat → List Nat → List Nat × Nat
  | _, [] => ([], 0)
  | mc, b :: rest =>
    if isWhitespaceByte b then ([], 1)
    else if mc == some 1 then ([b], 1)
    else
      let r := ruwAux (mc.map (fun k => k - 1)) rest
      (b :: r.1, r.2 + 1)

/-- Modelled from the spec: the bounded-read primitive — read up to the next
whitespace byte, capped at `maxchars` bytes; returns the text read and the
new cursor position. -/
def read_until_whitespace (data : List Nat) (pos : Nat) (maxchars : Option Nat) :
    List Nat × Nat :=
  let r := ruwAux maxchars (data.drop pos)
  (r.1, pos + r.2)

theorem ruwAux_no_ws (l : List Nat) : ∀ n, 1 ≤ n →
    (∀ b ∈ l.take n, isWhitespaceByte b = false) →
    ruwAux (some n) l = (l.take n, (l.take n).length) := by
  induction l with
  | nil => intro n _ _; simp [ruwAux]
  | cons b rest ih =>
    intro n hn h
    obtain ⟨k, rfl⟩ : ∃ k, n = k + 1 := ⟨n - 1, by omega⟩
    have hb : isWhitespaceByte b = false := h b (by simp [List.take_succ_cons])
    rcases Nat.eq_zero_or_pos k with hk | hk
    · subst hk
      simp [ruwAux, hb]
    · have hne : (some (k + 1) == some 1) = false := by
        simp [beq_iff_eq]; omega
      have ih2 := ih k hk (fun x hx => h x (by simp [List.take_succ_cons, hx]))
      simp [ruwAux, hb, hne, ih2, List.take_succ_cons]

theorem ruwAux_len_le (l : List Nat) : ∀ n, 1 ≤ n →
    (ruwAux (some n) l).1.length ≤ n := by
  induction l with
  | nil => intro n _; simp [ruwAux]
  | cons b rest ih =>
    intro n hn
    by_cases hb : isWhitespaceByte b = true
    · simp [ruwAux, hb]
    · simp only [Bool.not_eq_true] at hb
      by_cases h1 : n = 1
      · subst h1; simp [ruwAux, hb]
      · have hne : (some n == some 1) = false := by simp [beq_iff_eq]; omega
        have ih2 := ih (n - 1) (by omega)
        have hms : Option.map (fun k => k - 1) (some n) = some (n - 1) := rfl
        simp only [ruwAux, hb, Bool.false_eq_true, if_false, hne, hms,
          List.length_cons]
        omega

/-- C6: `read_until_whitespace` with a `maxchars` bound returns at most
`maxchars` bytes; when no whitespace occurs among the first `maxchars` bytes
it returns exactly those bytes and advances the cursor by exactly their
number, consuming no further input; in particular on the stream "foo" with
maxchars 1 it returns "f" having consumed one byte. -/
theorem read_until_whitespace_spec (data : List Nat) (pos n : Nat) :
    (1 ≤ n → (∀ b ∈ (data.drop pos).take n, isWhitespaceByte b = false) →
      read_until_whitespace data pos (some n) =
        ((data.drop pos).take n, pos + ((data.drop pos).take n).length)) ∧
    (1 ≤ n → (read_until_whitespace data pos (some n)).1.length ≤ n) ∧
    read_until_whitespace [102, 111, 111] 0 (some 1) = ([102], 1) := by
  refine ⟨?_, ?_, by decide⟩
  · intro hn h
    have := ruwAux_no_ws (data.drop pos) n hn h
    simp [read_until_whitespace, this]
  · intro hn
    have := ruwAux_len_le (data.drop pos) n hn
    simpa [read_until_whitespace] using this

/-- Modelled from the spec: read a block of `to_read` bytes ending at the
cursor, leaving the cursor at the start of the block; when fewer than
`to_read` bytes precede the cursor the read fails with a stream error (in
the library a stream error derives from the read error). -/
def read_block_backwards (data : List Nat) (pos to_read : Nat) :
    Except PdfError (List Nat × Nat) :=
  if pos < to_read then
    Except.error (PdfError.streamError "Could not read malformed PDF file")
  else
    Except.ok ((data.take pos).drop (pos - to_read), pos - to_read)

/-- C5: when `to_read ≤ pos`, `read_block_backwards` returns exactly the
`to_read` bytes immediately preceding the cursor and leaves the cursor at
`pos - to_read` (for `to_read = 0` the empty block with the cursor
unchanged); when `to_read > pos` it fails with the error message
"Could not read malformed PDF file" and returns no value; the test-suite
cases evaluate as recorded. -/
theorem read_block_backwards_spec (data : List Nat) (pos to_read : Nat) :
    (pos ≤ data.length → to_read ≤ pos →
      read_block_backwards data pos to_read =
        Except.ok ((data.drop (pos - to_read)).take to_read, pos - to_read) ∧
      ((data.drop (pos - to_read)).take to_read).length = to_read) ∧
    (read_block_backwards data pos 0 = Except.ok ([], pos)) ∧
    (pos < to_read →
      read_block_backwards data pos to_read =
        Except.error (PdfError.streamError "Could not read malformed PDF file")) ∧
    read_block_backwards [97, 98, 99] 1 0 = Except.ok ([], 1) ∧
    read_block_backwards [97, 98, 99] 2 1 = Except.ok ([98], 1) ∧
    read_block_backwards [97, 98, 99] 3 2 = Except.ok ([98, 99], 1) ∧
    read_block_backwards [97, 98, 99] 3 3 = Except.ok ([97, 98, 99], 0) ∧
    read_block_backwards [] 0 1 =
      Except.error (PdfError.streamError "Could not read malformed PDF file") ∧
    read_block_backwards [102, 111, 111, 98, 97, 114] 6 7 =
      Except.error (PdfError.streamError "Could not read malformed PDF file") := by
  refine ⟨?_, ?_, ?_, by rfl, by rfl, by rfl, by rfl, by rfl, by rfl⟩
  · intro hlen hle
    constructor
    · simp only [read_block_backwards, if_neg (not_lt.mpr hle)]
      rw [List.drop_take, Nat.sub_sub_self hle]
    · rw [List.length_take, List.length_drop]
      omega
  · simp only [read_block_backwards, if_neg (by omega : ¬pos < 0), Nat.sub_zero]
    rw [List.drop_of_length_le (by rw [List.length_take]; omega)]
  · intro h
    simp only [read_block_backwards, if_pos h]

/-- Modelled from the spec: an ASCII digit byte. -/
def isDigit (b : Nat) : Bool := decide (48 ≤ b ∧ b ≤ 57)

/-- Modelled from the spec: the value of a big-endian decimal digit string. -/
def digitsToNat (l : List Nat) : Nat := l.foldl (fun acc b => 10 * acc + (b - 48)) 0

/-- Modelled from the spec: parse a well-formed version header, the bytes
`%PDF-` followed by the declared version `x.y`; anything else does not match
the `%PDF-` pattern. -/
def parse_pdf_version (h : List Nat) : Option (Nat × Nat) :=
  match h with
  | 37 :: 80 :: 68 :: 70 :: 45 :: rest =>
    let intPart := rest.takeWhile isDigit
    let rest2 := rest.dropWhile isDigit
    if intPart.isEmpty then none
    else
      match rest2 with
      | 46 :: fracPart =>
        if fracPart.isEmpty then none
        else if fracPart.all isDigit then
          some (digitsToNat intPart, digitsToNat fracPart)
        else none
      | _ => none
  | _ => none

/-- Modelled from the spec: the declared version `x.y` is numerically
greater when the integer part is greater, or equal with a greater decimal
part. -/
def versionLt (v1 v2 : Nat × Nat) : Bool :=
  decide (v1.1 < v2.1 ∨ (v1.1 = v2.1 ∧ v1.2 < v2.2))

/-- A single-quote character as a string, used by the byte-string repr. -/
def squote : String := String.mk [Char.ofNat 39]

/-- Modelled from the spec: the printable-ASCII rendering of a byte string in
an error message, single-quoted with a `b` prefix. -/
def pyBytesRepr (bs : List Nat) : String :=
  "b" ++ squote ++ String.mk (bs.map Char.ofNat) ++ squote

/-- Modelled from the spec: of two candidate header byte strings return the
one declaring the numerically greatest well-formed `%PDF-` version, erroring
when neither matches the `%PDF-` pattern. -/
def _get_max_pdf_version_header (h1 h2 : List Nat) : Except String (List Nat) :=
  match parse_pdf_version h1, parse_pdf_version h2 with
  | none, none =>
    Except.error ("neither " ++ pyBytesRepr h1 ++ " nor " ++ pyBytesRepr h2 ++
      " are proper headers")
  | some _, none => Except.ok h1
  | none, some _ => Except.ok h2
  | some v1, some v2 => if versionLt v1 v2 then Except.ok h2 else Except.ok h1

theorem versionLt_asymm (a b : Nat × Nat) (h : versionLt a b = true) :
    versionLt b a = false := by
  simp only [versionLt, decide_eq_true_eq, decide_eq_false_iff_not] at *
  omega

theorem versionLt_irrefl (a : Nat × Nat) : versionLt a a = false := by
  simp only [versionLt, decide_eq_false_iff_not]
  omega

/-- C4: `_get_max_pdf_version_header` returns a candidate that parses as a
well-formed `%PDF-` header whose version is not numerically below either
parsed candidate (so with two well-formed headers of different versions the
greater one wins), and errors when neither candidate matches the `%PDF-`
pattern; in particular for the inputs b'' and b'PDF-1.2' it fails with
exactly the message `neither b'' nor b'PDF-1.2' are proper headers`. -/
theorem get_max_pdf_version_header_spec (h1 h2 : List Nat) :
    (parse_pdf_version h1 = none → parse_pdf_version h2 = none →
      _get_max_pdf_version_header h1 h2 =
        Except.error ("neither " ++ pyBytesRepr h1 ++ " nor " ++ pyBytesRepr h2 ++
          " are proper headers")) ∧
    (∀ v1 v2, parse_pdf_version h1 = some v1 → parse_pdf_version h2 = some v2 →
      ∃ h v, _get_max_pdf_version_header h1 h2 = Except.ok h ∧
        (h = h1 ∨ h = h2) ∧ parse_pdf_version h = some v ∧
        versionLt v v1 = false ∧ versionLt v v2 = false) ∧
    (∀ v1 v2, parse_pdf_version h1 = some v1 → parse_pdf_version h2 = some v2 →
      versionLt v1 v2 = true → _get_max_pdf_version_header h1 h2 = Except.ok h2) ∧
    (∀ v1 v2, parse_pdf_version h1 = some v1 → parse_pdf_version h2 = some v2 →
      versionLt v2 v1 = true → _get_max_pdf_version_header h1 h2 = Except.ok h1) ∧
    (∀ v1, parse_pdf_version h1 = some v1 → parse_pdf_version h2 = none →
      _get_max_pdf_version_header h1 h2 = Except.ok h1) ∧
    (∀ v2, parse_pdf_version h1 = none → parse_pdf_version h2 = some v2 →
      _get_max_pdf_version_header h1 h2 = Except.ok h2) ∧
    _get_max_pdf_version_header [] [80, 68, 70, 45, 49, 46, 50] =
      Except.error ("neither b" ++ squote ++ squote ++ " nor b" ++ squote ++
        "PDF-1.2" ++ squote ++ " are proper headers") ∧
    _get_max_pdf_version_header
        [37, 80, 68, 70, 45, 49, 46, 52] [37, 80, 68, 70, 45, 49, 46, 54] =
      Except.ok [37, 80, 68, 70, 45, 49, 46, 54] ∧
    _get_max_pdf_version_header
        [37, 80, 68, 70, 45, 50, 46, 48] [37, 80, 68, 70, 45, 49, 46, 55] =
      Except.ok [37, 80, 68, 70, 45, 50, 46, 48] := by
  refine ⟨?_, ?_, ?_, ?_, ?_, ?_, by rfl, by rfl, by rfl⟩
  · intro e1 e2
    simp only [_get_max_pdf_version_header, e1, e2]
  · intro v1 v2 e1 e2
    by_cases hb : versionLt v1 v2 = true
    · exact ⟨h2, v2, by simp [_get_max_pdf_version_header, e1, e2, hb],
        Or.inr rfl, e2, versionLt_asymm _ _ hb, versionLt_irrefl v2⟩
    · have hb' : versionLt v1 v2 = false := by
        cases hv : versionLt v1 v2
        · rfl
        · exact absurd hv hb
      exact ⟨h1, v1, by simp [_get_max_pdf_version_header, e1, e2, hb'],
        Or.inl rfl, e1, versionLt_irrefl v1, hb'⟩
  · intro v1 v2 e1 e2 hlt
    simp [_get_max_pdf_version_header, e1, e2, hlt]
  · intro v1 v2 e1 e2 hlt
    simp [_get_max_pdf_version_header, e1, e2, versionLt_asymm _ _ hlt]
  · intro v1 e1 e2
    simp [_get_max_pdf_version_header, e1, e2]
  · intro v2 e1 e2
    simp [_get_max_pdf_version_header, e1, e2]

/-- Modelled from the spec: one backward pass of the previous-line reader.
Starting from the bytes `u` before the cursor it repeatedly reads a block of
at most `w` bytes ending at the cursor (the configurable read-ahead window),
scans the block right to left collecting line bytes until the first CR/LF,
then keeps skipping CR/LF bytes; it stops just after the first non-CR/LF
byte preceding the run, returning the collected line and the new cursor
position.  The fuel argument bounds the number of blocks, one more than the
cursor position sufficing. -/
def rplLoop (w : Nat) : Nat → List Nat → Bool → List Nat → Option (List Nat × Nat)
  | 0, _, _, _ => none
  | fuel + 1, u, found, acc =>
    if u.isEmpty then some (acc, 0)
    else
      let toRead := min w u.length
      let u2 := u.take (u.length - toRead)
      let block := u.drop (u.length - toRead)
      let rev := block.reverse
      let linePart := if found then [] else rev.takeWhile (fun b => !isCRLF b)
      let rest := if found then rev else rev.dropWhile (fun b => !isCRLF b)
      let acc2 := linePart.reverse ++ acc
      if rest.isEmpty && !found then
        rplLoop w fuel u2 false acc2
      else
        let rest2 := rest.dropWhile isCRLF
        if rest2.isEmpty then rplLoop w fuel u2 true acc2
        else some (acc2, u2.length + rest2.length)

/-- Modelled from the spec: the backward-scanning primitive reading the
complete line preceding the cursor, handling the line-ending conventions and
spanning read-ahead windows of size `w`; with the cursor at the start of the
stream it fails with a stream error. -/
def read_previous_line (data : List Nat) (pos w : Nat) :
    Except PdfError (List Nat × Nat) :=
  if pos = 0 then Except.error (PdfError.streamError "Stream has ended unexpectedly")
  else
    match rplLoop w (pos + 1) (data.take pos) false [] with
    | some r => Except.ok r
    | none => Except.error (PdfError.streamError "Stream has ended unexpectedly")

-- test cases from test_read_previous_line (dat, pos, expected, expected_pos), window 8192 and small windows
theorem takeWhile_append_of_all (p : Nat → Bool) :
    ∀ A B : List Nat, (∀ b ∈ A, p b = true) →
      (A ++ B).takeWhile p = A ++ B.takeWhile p := by
  intro A
  induction A with
  | nil => intro B _; simp
  | cons a A' ih =>
    intro B h
    have ha := h a (by simp)
    simp [List.takeWhile_cons, ha, ih B (fun x hx => h x (by simp [hx]))]

theorem dropWhile_append_of_all (p : Nat → Bool) :
    ∀ A B : List Nat, (∀ b ∈ A, p b = true) →
      (A ++ B).dropWhile p = B.dropWhile p := by
  intro A
  induction A with
  | nil => intro B _; simp
  | cons a A' ih =>
    intro B h
    have ha := h a (by simp)
    simp [List.dropWhile_cons, ha, ih B (fun x hx => h x (by simp [hx]))]


theorem dropWhile_all_nil (p : Nat → Bool) (l : List Nat)
    (h : ∀ b ∈ l, p b = true) : l.dropWhile p = [] := by
  have := dropWhile_append_of_all p l [] h
  simpa using this

theorem takeWhile_all_self (p : Nat → Bool) (l : List Nat)
    (h : ∀ b ∈ l, p b = true) : l.takeWhile p = l := by
  have := takeWhile_append_of_all p l [] h
  simpa using this

theorem rplLoop_found_step (w f : Nat) (u acc : List Nat) (hu : u ≠ []) :
    rplLoop w (f + 1) u true acc =
      (if (((u.drop (u.length - min w u.length)).reverse.dropWhile isCRLF).isEmpty)
       then rplLoop w f (u.take (u.length - min w u.length)) true acc
       else some (acc, (u.take (u.length - min w u.length)).length +
          ((u.drop (u.length - min w u.length)).reverse.dropWhile isCRLF).length)) := by
  have hne : u.isEmpty = false := by simp [List.isEmpty_iff, hu]
  simp [rplLoop, hne]

theorem rplLoop_scan_step (w f : Nat) (u acc : List Nat) (hu : u ≠ []) :
    rplLoop w (f + 1) u false acc =
      (if ((u.drop (u.length - min w u.length)).reverse.dropWhile
            (fun b => !isCRLF b)).isEmpty
       then rplLoop w f (u.take (u.length - min w u.length)) false
         (((u.drop (u.length - min w u.length)).reverse.takeWhile
            (fun b => !isCRLF b)).reverse ++ acc)
       else if (((u.drop (u.length - min w u.length)).reverse.dropWhile
            (fun b => !isCRLF b)).dropWhile isCRLF).isEmpty
       then rplLoop w f (u.take (u.length - min w u.length)) true
         (((u.drop (u.length - min w u.length)).reverse.takeWhile
            (fun b => !isCRLF b)).reverse ++ acc)
       else some ((((u.drop (u.length - min w u.length)).reverse.takeWhile
            (fun b => !isCRLF b)).reverse ++ acc),
          (u.take (u.length - min w u.length)).length +
          (((u.drop (u.length - min w u.length)).reverse.dropWhile
            (fun b => !isCRLF b)).dropWhile isCRLF).length)) := by
  have hne : u.isEmpty = false := by simp [List.isEmpty_iff, hu]
  simp [rplLoop, hne]

theorem rplLoop_found (w : Nat) (hw : 1 ≤ w) (pfx : List Nat)
    (hpfx : pfx = [] ∨ ∃ p a, pfx = p ++ [a] ∧ isCRLF a = false) :
    ∀ fuel r acc, (∀ b ∈ r, isCRLF b = true) → (pfx ++ r).length < fuel →
      rplLoop w fuel (pfx ++ r) true acc = some (acc, pfx.length) := by
  intro fuel
  induction fuel with
  | zero => intro r acc _ hlen; exact absurd hlen (by omega)
  | succ f ih =>
    intro r acc hr hlen
    by_cases hu : pfx ++ r = []
    · have hp : pfx = [] := (List.append_eq_nil.mp hu).1
      have hr0 : r = [] := (List.append_eq_nil.mp hu).2
      subst hp; subst hr0
      simp [rplLoop]
    · rw [rplLoop_found_step w f (pfx ++ r) acc hu]
      have hul : 0 < (pfx ++ r).length := List.length_pos.mpr hu
      have ht1 : 1 ≤ min w (pfx ++ r).length := by omega
      have hlen' : (pfx ++ r).length = pfx.length + r.length := by simp
      have hfge : (pfx ++ r).length ≤ f := by omega
      generalize hs : (pfx ++ r).length - min w (pfx ++ r).length = s
      have hs_lt : s < (pfx ++ r).length := by omega
      have hs_f : s < f := by omega
      rcases Nat.lt_or_ge s pfx.length with hcase | hcase
      · -- block reaches into pfx: the run of CR/LF ends inside this block
        rcases hpfx with hp0 | ⟨p, a, hpa, hacrlf⟩
        · rw [hp0] at hcase; simp at hcase
        · have hplen : pfx.length = p.length + 1 := by simp [hpa]
          have hs_le : s ≤ p.length := by omega
          have hdrop0 : pfx.drop s = p.drop s ++ [a] := by
            rw [hpa, List.drop_append_of_le_length hs_le]
          have hdrop : (pfx ++ r).drop s = (p.drop s ++ [a]) ++ r := by
            rw [List.drop_append_of_le_length (by omega), hdrop0]
          have hdw : (((pfx ++ r).drop s).reverse).dropWhile isCRLF =
              a :: (p.drop s).reverse := by
            rw [hdrop]
            rw [show ((p.drop s ++ [a]) ++ r).reverse =
              r.reverse ++ (a :: (p.drop s).reverse) from by simp]
            rw [dropWhile_append_of_all isCRLF _ _
              (fun x hx => hr x (List.mem_reverse.mp hx))]
            simp [List.dropWhile_cons, hacrlf]
          rw [hdw]
          simp only [List.isEmpty_cons, Bool.false_eq_true, if_false]
          have hlen2 : ((pfx ++ r).take s).length = s := by
            rw [List.length_take]; omega
          rw [hlen2]
          congr 2
          simp only [List.length_cons, List.length_reverse, List.length_drop]
          omega
      · -- block stays inside the CR/LF run: recurse
        have hk : s = pfx.length + (s - pfx.length) := by omega
        have hdrop : (pfx ++ r).drop s = r.drop (s - pfx.length) := by
          conv_lhs => rw [hk]
          rw [List.drop_append]
        have htake : (pfx ++ r).take s = pfx ++ r.take (s - pfx.length) := by
          conv_lhs => rw [hk]
          rw [List.take_append]
        have hdw : (((pfx ++ r).drop s).reverse).dropWhile isCRLF = [] := by
          rw [hdrop]
          exact dropWhile_all_nil _ _
            (fun x hx => hr x (List.mem_of_mem_drop (List.mem_reverse.mp hx)))
        rw [hdw, htake]
        simp only [List.isEmpty_nil, if_true]
        exact ih (r.take (s - pfx.length)) acc
          (fun x hx => hr x (List.mem_of_mem_take hx))
          (by simp only [List.length_append, List.length_take]; omega)

theorem rplLoop_scan (w : Nat) (hw : 1 ≤ w) (pfx run : List Nat)
    (hpfx : pfx = [] ∨ ∃ p a, pfx = p ++ [a] ∧ isCRLF a = false)
    (hrun : ∀ b ∈ run, isCRLF b = true)
    (hpr : pfx ≠ [] → run ≠ []) :
    ∀ fuel line acc, (∀ b ∈ line, isCRLF b = false) →
      (pfx ++ run ++ line).length < fuel →
      rplLoop w fuel (pfx ++ run ++ line) false acc =
        some (line ++ acc, pfx.length) := by
  intro fuel
  induction fuel with
  | zero => intro line acc _ h; exact absurd h (by omega)
  | succ f ih =>
    intro line acc hline hlen
    by_cases hu : pfx ++ run ++ line = []
    · have h1 := List.append_eq_nil.mp hu
      have h2 := List.append_eq_nil.mp h1.1
      rw [h2.1, h2.2] at *
      rw [(List.append_eq_nil.mp hu).2] at *
      simp [rplLoop]
    · rw [rplLoop_scan_step w f _ acc hu]
      have hul : 0 < (pfx ++ run ++ line).length := List.length_pos.mpr hu
      have ht1 : 1 ≤ min w (pfx ++ run ++ line).length := by omega
      have hlen' : (pfx ++ run ++ line).length =
          pfx.length + run.length + line.length := by
        simp only [List.length_append]
      have hfge : (pfx ++ run ++ line).length ≤ f := by omega
      generalize hs : (pfx ++ run ++ line).length - min w (pfx ++ run ++ line).length = s
      have hs_lt : s < (pfx ++ run ++ line).length := by omega
      have hs_f : s < f := by omega
      rcases Nat.lt_or_ge s (pfx.length + run.length) with hcase | hcase
      · -- the block reaches past the line into the CR/LF run (or further)
        have hrne : run ≠ [] := by
          rcases eq_or_ne pfx [] with hp | hp
          · intro h0
            rw [hp, h0] at hcase
            simp at hcase
          · exact hpr hp
        obtain ⟨q, c, hqc⟩ := (List.eq_nil_or_concat run).resolve_left hrne
        rw [List.concat_eq_append] at hqc
        have hc : isCRLF c = true := hrun c (by simp [hqc])
        have hrunrev : run.reverse = c :: q.reverse := by simp [hqc]
        rcases Nat.lt_or_ge s pfx.length with hcase2 | hcase2
        · -- the block also reaches past the run into pfx: stop here
          have hpne : pfx ≠ [] := by
            intro h0; rw [h0] at hcase2; simp at hcase2
          obtain ⟨p, a, hpa, hacrlf⟩ := hpfx.resolve_left hpne
          have hplen : pfx.length = p.length + 1 := by simp [hpa]
          have hs_le : s ≤ p.length := by omega
          have hdrop : (pfx ++ run ++ line).drop s =
              ((p.drop s ++ [a]) ++ run) ++ line := by
            rw [List.drop_append_of_le_length (by simp; omega),
              List.drop_append_of_le_length (by omega), hpa,
              List.drop_append_of_le_length hs_le]
          have hrev : ((pfx ++ run ++ line).drop s).reverse =
              line.reverse ++ (run.reverse ++ (a :: (p.drop s).reverse)) := by
            rw [hdrop]; simp
          have htw : (((pfx ++ run ++ line).drop s).reverse.takeWhile
              (fun b => !isCRLF b)) = line.reverse := by
            rw [hrev, takeWhile_append_of_all _ _ _
              (fun x hx => by
                have := hline x (List.mem_reverse.mp hx)
                simp [this])]
            rw [hrunrev]
            simp [List.takeWhile_cons, hc]
          have hdw : (((pfx ++ run ++ line).drop s).reverse.dropWhile
              (fun b => !isCRLF b)) =
              run.reverse ++ (a :: (p.drop s).reverse) := by
            rw [hrev, dropWhile_append_of_all _ _ _
              (fun x hx => by
                have := hline x (List.mem_reverse.mp hx)
                simp [this])]
            rw [hrunrev]
            simp [List.dropWhile_cons, hc]
          have hdw2 : (run.reverse ++ (a :: (p.drop s).reverse)).dropWhile isCRLF =
              a :: (p.drop s).reverse := by
            rw [dropWhile_append_of_all isCRLF _ _
              (fun x hx => hrun x (List.mem_reverse.mp hx))]
            simp [List.dropWhile_cons, hacrlf]
          rw [htw, hdw, hdw2, hrunrev]
          simp only [List.cons_append, List.isEmpty_cons, Bool.false_eq_true,
            if_false, List.reverse_reverse]
          have hlen2 : ((pfx ++ run ++ line).take s).length = s := by
            rw [List.length_take]; omega
          rw [hlen2]
          congr 2
          simp only [List.length_cons, List.length_reverse, List.length_drop]
          omega
        · -- the block ends inside the CR/LF run: switch to the found phase
          have hk : s = pfx.length + (s - pfx.length) := by omega
          have hkq : s - pfx.length ≤ q.length := by
            have : run.length = q.length + 1 := by simp [hqc]
            omega
          have hdrop1 : (pfx ++ run).drop s = q.drop (s - pfx.length) ++ [c] := by
            conv_lhs => rw [hk]
            rw [List.drop_append, hqc, List.drop_append_of_le_length hkq]
          have hdrop : (pfx ++ run ++ line).drop s =
              (q.drop (s - pfx.length) ++ [c]) ++ line := by
            rw [List.drop_append_of_le_length (by simp; omega), hdrop1]
          have htake : (pfx ++ run ++ line).take s =
              pfx ++ run.take (s - pfx.length) := by
            rw [List.take_append_of_le_length (by simp; omega)]
            conv_lhs => rw [hk]
            rw [List.take_append]
          have hrev : ((pfx ++ run ++ line).drop s).reverse =
              line.reverse ++ (c :: (q.drop (s - pfx.length)).reverse) := by
            rw [hdrop]; simp
          have htw : (((pfx ++ run ++ line).drop s).reverse.takeWhile
              (fun b => !isCRLF b)) = line.reverse := by
            rw [hrev, takeWhile_append_of_all _ _ _
              (fun x hx => by
                have := hline x (List.mem_reverse.mp hx)
                simp [this])]
            simp [List.takeWhile_cons, hc]
          have hdw : (((pfx ++ run ++ line).drop s).reverse.dropWhile
              (fun b => !isCRLF b)) =
              c :: (q.drop (s - pfx.length)).reverse := by
            rw [hrev, dropWhile_append_of_all _ _ _
              (fun x hx => by
                have := hline x (List.mem_reverse.mp hx)
                simp [this])]
            simp [List.dropWhile_cons, hc]
          have hdw2 : (c :: (q.drop (s - pfx.length)).reverse).dropWhile isCRLF
              = [] := by
            refine dropWhile_all_nil _ _ (fun x hx => ?_)
            rcases List.mem_cons.mp hx with h0 | h0
            · rw [h0]; exact hc
            · refine hrun x ?_
              have : x ∈ q := List.mem_of_mem_drop (List.mem_reverse.mp h0)
              simp [hqc, this]
          rw [htw, hdw, hdw2, htake]
          simp only [List.isEmpty_cons, Bool.false_eq_true, if_false,
            List.isEmpty_nil, if_true, List.reverse_reverse]
          refine rplLoop_found w hw pfx hpfx f (run.take (s - pfx.length))
            (line ++ acc) (fun x hx => hrun x (List.mem_of_mem_take hx)) ?_
          simp only [List.length_append, List.length_take]
          omega
      · -- the block stays inside the line: keep scanning
        have hk : s = (pfx ++ run).length + (s - (pfx.length + run.length)) := by
          simp only [List.length_append]
          omega
        have hdrop : (pfx ++ run ++ line).drop s =
            line.drop (s - (pfx.length + run.length)) := by
          conv_lhs => rw [hk]
          rw [List.drop_append]
        have htake : (pfx ++ run ++ line).take s =
            (pfx ++ run) ++ line.take (s - (pfx.length + run.length)) := by
          conv_lhs => rw [hk]
          rw [List.take_append]
        have hdw : (((pfx ++ run ++ line).drop s).reverse.dropWhile
            (fun b => !isCRLF b)) = [] := by
          rw [hdrop]
          refine dropWhile_all_nil _ _ (fun x hx => ?_)
          have := hline x (List.mem_of_mem_drop (List.mem_reverse.mp hx))
          simp [this]
        have htw : (((pfx ++ run ++ line).drop s).reverse.takeWhile
            (fun b => !isCRLF b)) =
            (line.drop (s - (pfx.length + run.length))).reverse := by
          rw [hdrop]
          refine takeWhile_all_self _ _ (fun x hx => ?_)
          have := hline x (List.mem_of_mem_drop (List.mem_reverse.mp hx))
          simp [this]
        rw [hdw, htw, htake]
        simp only [List.isEmpty_nil, if_true, List.reverse_reverse]
        have hres := ih (line.take (s - (pfx.length + run.length)))
          (line.drop (s - (pfx.length + run.length)) ++ acc)
          (fun x hx => hline x (List.mem_of_mem_take hx))
          (by simp only [List.length_append, List.length_take]; omega)
        rw [hres]
        rw [← List.append_assoc, List.take_append_drop]

theorem dropWhile_head_false (p : Nat → Bool) :
    ∀ (l : List Nat) (x : Nat) (xs : List Nat),
      l.dropWhile p = x :: xs → p x = false := by
  intro l
  induction l with
  | nil => intro x xs h; simp [List.dropWhile] at h
  | cons a l' ih =>
    intro x xs h
    by_cases ha : p a = true
    · rw [List.dropWhile_cons, if_pos ha] at h
      exact ih x xs h
    · rw [List.dropWhile_cons, if_neg ha] at h
      rw [← (List.cons.injEq .. |>.mp h).1]
      exact Bool.eq_false_iff.mpr ha

theorem exists_line_decomposition (u : List Nat) :
    ∃ pfx run line : List Nat,
      u = pfx ++ run ++ line ∧
      (∀ b ∈ run, isCRLF b = true) ∧
      (∀ b ∈ line, isCRLF b = false) ∧
      (pfx = [] ∨ ∃ p a, pfx = p ++ [a] ∧ isCRLF a = false) ∧
      (pfx ≠ [] → run ≠ []) := by
  refine ⟨((u.reverse.dropWhile (fun b => !isCRLF b)).dropWhile isCRLF).reverse,
    ((u.reverse.dropWhile (fun b => !isCRLF b)).takeWhile isCRLF).reverse,
    (u.reverse.takeWhile (fun b => !isCRLF b)).reverse, ?_, ?_, ?_, ?_, ?_⟩
  · have h3 : u.reverse.takeWhile (fun b => !isCRLF b) ++
        ((u.reverse.dropWhile (fun b => !isCRLF b)).takeWhile isCRLF ++
         (u.reverse.dropWhile (fun b => !isCRLF b)).dropWhile isCRLF) =
        u.reverse := by
      rw [List.takeWhile_append_dropWhile, List.takeWhile_append_dropWhile]
    calc u = (u.reverse.takeWhile (fun b => !isCRLF b) ++
        ((u.reverse.dropWhile (fun b => !isCRLF b)).takeWhile isCRLF ++
         (u.reverse.dropWhile (fun b => !isCRLF b)).dropWhile isCRLF)).reverse := by
          rw [h3, List.reverse_reverse]
    _ = ((u.reverse.dropWhile (fun b => !isCRLF b)).takeWhile isCRLF ++
         (u.reverse.dropWhile (fun b => !isCRLF b)).dropWhile isCRLF).reverse ++
        (u.reverse.takeWhile (fun b => !isCRLF b)).reverse := by
          rw [List.reverse_append]
    _ = (((u.reverse.dropWhile (fun b => !isCRLF b)).dropWhile isCRLF).reverse ++
         ((u.reverse.dropWhile (fun b => !isCRLF b)).takeWhile isCRLF).reverse) ++
        (u.reverse.takeWhile (fun b => !isCRLF b)).reverse := by
          rw [List.reverse_append]
  · intro b hb
    exact List.mem_takeWhile_imp (List.mem_reverse.mp hb)
  · intro b hb
    have := List.mem_takeWhile_imp (List.mem_reverse.mp hb)
    simpa using this
  · rcases h : (u.reverse.dropWhile (fun b => !isCRLF b)).dropWhile isCRLF
      with _ | ⟨a, t⟩
    · left; simp
    · right
      exact ⟨t.reverse, a, by simp, dropWhile_head_false isCRLF _ a t h⟩
  · intro hvp
    have h1 : (u.reverse.dropWhile (fun b => !isCRLF b)).dropWhile isCRLF ≠ [] := by
      intro h0; rw [h0] at hvp; simp at hvp
    have h2 : u.reverse.dropWhile (fun b => !isCRLF b) ≠ [] := by
      intro h0; rw [h0] at h1; simp at h1
    obtain ⟨x, xs, hx⟩ := List.exists_cons_of_ne_nil h2
    have hpx : (fun b => !isCRLF b) x = false :=
      dropWhile_head_false (fun b => !isCRLF b) u.reverse x xs hx
    have hxc : isCRLF x = true := by simpa using hpx
    rw [hx]
    simp [List.takeWhile_cons, hxc]

/-- C3: for every buffer and cursor position with at least one byte before
the cursor, and every read-ahead window size `w ≥ 1`, the bytes before the
cursor decompose uniquely as prefix ++ run ++ line with the run made of
CR/LF bytes only (nonempty unless the prefix is empty), the line free of
CR/LF bytes, and the prefix ending in a non-CR/LF byte; `read_previous_line`
returns exactly that line and leaves the cursor at the prefix's length, the
offset just after the preceding line where its terminating CR/LF run starts;
in particular on "abc\n\r\ndef" with the cursor at offset 9 it returns "def"
and leaves the cursor at offset 3, both for a window spanning the whole
buffer and for a window of 2 bytes that the line and the newline run
straddle. -/
theorem read_previous_line_spec (data : List Nat) (pos w : Nat) :
    (1 ≤ pos → pos ≤ data.length → 1 ≤ w →
      ∃ pfx run line : List Nat,
        data.take pos = pfx ++ run ++ line ∧
        (∀ b ∈ run, isCRLF b = true) ∧
        (∀ b ∈ line, isCRLF b = false) ∧
        (pfx = [] ∨ ∃ p a, pfx = p ++ [a] ∧ isCRLF a = false) ∧
        (pfx ≠ [] → run ≠ []) ∧
        read_previous_line data pos w = Except.ok (line, pfx.length)) ∧
    read_previous_line [97, 98, 99, 10, 13, 10, 100, 101, 102] 9 2 =
      Except.ok ([100, 101, 102], 3) ∧
    read_previous_line [97, 98, 99, 10, 13, 10, 100, 101, 102] 9 8192 =
      Except.ok ([100, 101, 102], 3) := by
  refine ⟨?_, by rfl, by rfl⟩
  intro hpos hlen hw
  obtain ⟨pfx, run, line, hdec, hrun, hline, hpfx, hpr⟩ :=
    exists_line_decomposition (data.take pos)
  refine ⟨pfx, run, line, hdec, hrun, hline, hpfx, hpr, ?_⟩
  have hlen2 : (pfx ++ run ++ line).length < pos + 1 := by
    rw [← hdec, List.length_take]
    omega
  have hloop := rplLoop_scan w hw pfx run hpfx hrun hpr (pos + 1) line [] hline hlen2
  simp only [read_previous_line, if_neg (by omega : ¬pos = 0)]
  rw [hdec, hloop]
  simp

/-- C9: for every stream whose cursor is at offset 0, with no bytes before
the cursor, `read_previous_line` fails with a stream error rather than
returning a line. -/
theorem read_previous_line_at_start (data : List Nat) (w : Nat) :
    read_previous_line data 0 w =
      Except.error (PdfError.streamError "Stream has ended unexpectedly") := by
  rfl

/-- Embedded from src/pdf-mp3-py.py: the text Python's `str.strip()` leaves,
the argument with leading and trailing whitespace characters removed. -/
def pyStrip (s : String) : String :=
  String.mk (((s.data.dropWhile Char.isWhitespace).reverse.dropWhile
    Char.isWhitespace).reverse)

/-- Embedded from src/pdf-mp3-py.py: the text Python's
`replace(newline, space)` produces, every newline character replaced by a
space. -/
def replaceNewlines (s : String) : String :=
  String.mk (s.data.map (fun c => if c = Char.ofNat 10 then Char.ofNat 32 else c))

/-- What the script hands to its collaborators: the page count it computes,
the text passed to the speech engine, and the file the audio is saved to. -/
structure ScriptResult where
  number_of_pages : Nat
  spoken_text : String
  output_file : String
deriving DecidableEq

/-- Embedded from src/pdf-mp3-py.py: the document is abstracted as the list
of its pages' extracted texts; the script computes the page count, extracts
the text of page index 0, strips it and replaces newlines by spaces, prints
it, and saves the speech synthesis of that cleaned text to Irish.mp3;
indexing page 0 of an empty document fails, modelled as `none`. -/
def pdf_mp3_script (pages : List String) : Option ScriptResult :=
  let number_of_pages := pages.length
  match pages.get? 0 with
  | none => none
  | some text =>
    let clean_text := replaceNewlines (pyStrip text)
    some { number_of_pages := number_of_pages, spoken_text := clean_text,
           output_file := "Irish.mp3" }

/-- C10: the script synthesizes audio only from the first page: although it
computes the total page count, the text passed to the speech engine is
exactly page index 0's extracted text stripped of surrounding whitespace
with every newline replaced by a space, saved to the file Irish.mp3; the
result is unchanged when the pages after the first are replaced by any
others. -/
theorem pdf_mp3_script_spec (p0 : String) (rest rest2 : List String) :
    pdf_mp3_script (p0 :: rest) =
      some { number_of_pages := (p0 :: rest).length,
             spoken_text := replaceNewlines (pyStrip p0),
             output_file := "Irish.mp3" } ∧
    (pdf_mp3_script (p0 :: rest)).map ScriptResult.spoken_text =
      (pdf_mp3_script (p0 :: rest2)).map ScriptResult.spoken_text ∧
    (pdf_mp3_script (p0 :: rest)).map ScriptResult.output_file =
      some "Irish.mp3" ∧
    pdf_mp3_script [] = none := by
  refine ⟨rfl, ?_, rfl, rfl⟩
  simp [pdf_mp3_script]

/-- Witness for C1: the tie-break clause applied at the concrete table entry
paeth(2,1,3), where up is strictly closer than left. -/
theorem paeth_predictor_spec_witness : paeth_predictor 2 1 3 = 1 :=
  (paeth_predictor_spec 2 1 3).2.2.2.2.2.1 (by decide) (by decide)

/-- Witness for C2: the kB clause applied at the concrete count 123456. -/
theorem human_readable_bytes_spec_witness :
    ∃ t, 2000 * t ≤ 20 * 123456 + 1000 ∧ 20 * 123456 + 1000 < 2000 * (t + 1) ∧
      _human_readable_bytes 123456 =
        toString (t / 10) ++ "." ++ toString (t % 10) ++ " kB" :=
  (human_readable_bytes_spec 123456).2.1 (by norm_num) (by norm_num)

/-- Witness for C3: the general clause applied to the buffer "abc\n\r\ndef"
with the cursor at offset 9 and a window of 2 bytes. -/
theorem read_previous_line_spec_witness :
    ∃ pfx run line : List Nat,
      List.take 9 [97, 98, 99, 10, 13, 10, 100, 101, 102] =
        pfx ++ run ++ line ∧
      (∀ b ∈ run, isCRLF b = true) ∧
      (∀ b ∈ line, isCRLF b = false) ∧
      (pfx = [] ∨ ∃ p a, pfx = p ++ [a] ∧ isCRLF a = false) ∧
      (pfx ≠ [] → run ≠ []) ∧
      read_previous_line [97, 98, 99, 10, 13, 10, 100, 101, 102] 9 2 =
        Except.ok (line, pfx.length) :=
  (read_previous_line_spec [97, 98, 99, 10, 13, 10, 100, 101, 102] 9 2).1
    (by norm_num) (by norm_num) (by norm_num)

/-- Witness for C4: the error clause applied to the candidates b'' and
b'PDF-1.2', neither of which matches the %PDF- pattern. -/
theorem get_max_pdf_version_header_spec_witness :
    _get_max_pdf_version_header [] [80, 68, 70, 45, 49, 46, 50] =
      Except.error ("neither " ++ pyBytesRepr [] ++ " nor " ++
        pyBytesRepr [80, 68, 70, 45, 49, 46, 50] ++ " are proper headers") :=
  (get_max_pdf_version_header_spec [] [80, 68, 70, 45, 49, 46, 50]).1 rfl rfl

/-- Witness for C5: the failure clause applied to the stream "foobar" with
the cursor at 6 and a request of 7 bytes. -/
theorem read_block_backwards_spec_witness :
    read_block_backwards [102, 111, 111, 98, 97, 114] 6 7 =
      Except.error (PdfError.streamError "Could not read malformed PDF file") :=
  (read_block_backwards_spec [102, 111, 111, 98, 97, 114] 6 7).2.2.1 (by norm_num)

/-- Witness for C6: the bounded-read clause applied to the stream "foo" with
maxchars 2 and no whitespace among the first two bytes. -/
theorem read_until_whitespace_spec_witness :
    read_until_whitespace [102, 111, 111] 0 (some 2) =
      (([102, 111, 111].drop 0).take 2,
        0 + (([102, 111, 111].drop 0).take 2).length) :=
  (read_until_whitespace_spec [102, 111, 111] 0 2).1 (by norm_num) (by decide)

/-- Witness for C7: the comment clause applied at "% foo%\nbar", whose body
" foo%" of five bytes contains a % and ends at the first newline. -/
theorem skip_over_comment_spec_witness :
    skip_over_comment [37, 32, 102, 111, 111, 37, 10, 98, 97, 114] 0 = 0 + 2 + 5 :=
  (skip_over_comment_spec [37, 32, 102, 111, 111, 37, 10, 98, 97, 114] 0).2.2.1
    [32, 102, 111, 111, 37] 10 [98, 97, 114] (by decide) (by decide) (by decide)
